import Mathlib

/-!
Verification of the text-transformation pipeline and orchestration of
`scripts/generate_resume.py` (pyresume).

Strings are modelled as `List Char`.  Python `str.replace(pat, r)` is
modelled by `pyReplace` (left-to-right, non-overlapping, fuel equal to the
length of the subject string, which always suffices because every step
consumes at least one character).  `re.sub` with the non-greedy patterns
used by `convert_markdown_to_latex` is modelled by `reSub`: at each
position, try to match the opening delimiter, then the shortest non-empty
run of non-newline characters followed by the closing delimiter; on
failure advance one character.
-/

set_option maxRecDepth 100000

namespace PyResume

/-- Boolean test that `p` is an initial segment of `s`. -/
def startsWith : List Char → List Char → Bool
  | [], _ => true
  | _ :: _, [] => false
  | p :: ps, x :: xs => p == x && startsWith ps xs

/-- Boolean test that `pat` occurs as a contiguous run somewhere in `s`. -/
def occursIn (pat : List Char) : List Char → Bool
  | [] => pat.isEmpty
  | x :: xs => startsWith pat (x :: xs) || occursIn pat xs

/-- Fuel-driven engine of Python `str.replace`: replace every
non-overlapping occurrence of `pat` by `r`, scanning left to right. -/
def replaceAux (pat r : List Char) : Nat → List Char → List Char
  | 0, s => s
  | _ + 1, [] => []
  | fuel + 1, x :: xs =>
    if startsWith pat (x :: xs) then
      r ++ replaceAux pat r fuel ((x :: xs).drop pat.length)
    else
      x :: replaceAux pat r fuel xs

/-- Model of Python `text.replace(pat, r)` (for non-empty `pat`). -/
def pyReplace (s pat r : List Char) : List Char :=
  replaceAux pat r s.length s

/-- Backtracking content matcher for the non-greedy group `(.+?)` followed
by the closing delimiter `cl`: the shortest non-empty run of non-newline
characters after which `cl` matches.  Returns the content and the rest of
the string after the closing delimiter. -/
def findContent (cl : List Char) : List Char → Option (List Char × List Char)
  | [] => none
  | x :: xs =>
    if x = '\n' then none
    else if startsWith cl xs then some ([x], xs.drop cl.length)
    else
      match findContent cl xs with
      | some (content, rest) => some (x :: content, rest)
      | none => none

/-- Fuel-driven engine of `re.sub(op (.+?) cl, rS \1 rE, s)`: scan left to
right; at each position try the opening delimiter and then the shortest
content/closing match; on success emit `rS ++ content ++ rE` and continue
after the match, otherwise keep one character and advance. -/
def subAux (op cl rS rE : List Char) : Nat → List Char → List Char
  | 0, s => s
  | _ + 1, [] => []
  | fuel + 1, x :: xs =>
    if startsWith op (x :: xs) then
      match findContent cl ((x :: xs).drop op.length) with
      | some (content, rest) =>
        rS ++ content ++ rE ++ subAux op cl rS rE fuel rest
      | none => x :: subAux op cl rS rE fuel xs
    else
      x :: subAux op cl rS rE fuel xs

/-- Model of one `re.sub` pass of `convert_markdown_to_latex`. -/
def reSub (op cl rS rE s : List Char) : List Char :=
  subAux op cl rS rE s.length s

/-- Placeholder tokens used by the source (`<<<TEXTBFSTART>>>` etc.). -/
def bfStart : List Char := "<<<TEXTBFSTART>>>".data

def bfEnd : List Char := "<<<TEXTBFEND>>>".data

def itStart : List Char := "<<<TEXTITSTART>>>".data

def itEnd : List Char := "<<<TEXTITEND>>>".data

def ttStart : List Char := "<<<TEXTTTSTART>>>".data

def ttEnd : List Char := "<<<TEXTTTEND>>>".data

/-- Model of `convert_markdown_to_latex`: the four `re.sub` passes of the
source, in source order (`**bold**`, `*bold*`, `_italic_`, backtick code),
each rewriting a delimited span into a placeholder span. -/
def convert_markdown_to_latex (s : List Char) : List Char :=
  let s1 := reSub ['*', '*'] ['*', '*'] bfStart bfEnd s
  let s2 := reSub ['*'] ['*'] bfStart bfEnd s1
  let s3 := reSub ['_'] ['_'] itStart itEnd s2
  reSub ['\x60'] ['\x60'] ttStart ttEnd s3

/-- Ordered per-character replacement table of `escape_latex`: the
`replacements` dict of the source in insertion order, extended with the
`_`, brace entries exactly when `preserve_commands` is false. -/
def replacements (preserve_commands : Bool) : List (Char × List Char) :=
  [('&', "\\&".data),
   ('%', "\\%".data),
   ('$', "\\$".data),
   ('#', "\\#".data),
   ('~', "\\textasciitilde\x7b\x7d".data),
   ('^', "\\textasciicircum\x7b\x7d".data)] ++
  (if preserve_commands then []
   else [('_', "\\_".data), ('\x7b', "\\\x7b".data), ('\x7d', "\\\x7d".data)])

/-- Sequential application of a replacement table, one `str.replace` per
entry, in table order (the `for char, replacement in replacements.items()`
loop of the source). -/
def applyRepls (rs : List (Char × List Char)) (s : List Char) : List Char :=
  rs.foldl (fun t pr => pyReplace t [pr.1] pr.2) s

/-- Placeholder-resolution table of `escape_latex` (source order). -/
def placeholderRepls : List (List Char × List Char) :=
  [(bfStart, "\\textbf\x7b".data), (bfEnd, "\x7d".data),
   (itStart, "\\textit\x7b".data), (itEnd, "\x7d".data),
   (ttStart, "\\texttt\x7b".data), (ttEnd, "\x7d".data)]

/-- Sequential resolution of the six placeholder tokens, one
`str.replace` per token, in source order. -/
def resolvePlaceholders (t : List Char) : List Char :=
  placeholderRepls.foldl (fun u pr => pyReplace u pr.1 pr.2) t

/-- Model of `escape_latex`: apply the ordered character replacements,
then, exactly when `preserve_commands` is true, resolve the placeholder
tokens into LaTeX commands. -/
def escape_latex (s : List Char) (preserve_commands : Bool) : List Char :=
  let t := applyRepls (replacements preserve_commands) s
  if preserve_commands then resolvePlaceholders t else t

/-- String-leaf sanitisation as performed by `_escape_data`:
`escape_latex(convert_markdown_to_latex(s), preserve_commands=True)`. -/
def sanitizeStr (s : List Char) : List Char :=
  escape_latex (convert_markdown_to_latex s) true

example :
    sanitizeStr "**Bold** and _italic_ and \x60code\x60 with 50% & more".data =
      "\\textbf\x7bBold\x7d and \\textit\x7bitalic\x7d and \\texttt\x7bcode\x7d with 50\\% \\& more".data := by
  decide

example :
    convert_markdown_to_latex "**a _b_ c**".data =
      "<<<TEXTBFSTART>>>a <<<TEXTITSTART>>>b<<<TEXTITEND>>> c<<<TEXTBFEND>>>".data := by
  decide

example : escape_latex "%".data false = "\\%".data := by decide

example : escape_latex "~".data false = "\\textasciitilde\\\x7b\\\x7d".data := by decide

/-!
Model of the YAML-derived data structures handled by `_escape_data` and
`load_resume_data`.  A Python value is a string, a number, a boolean,
`None`, a list, or a dict with string keys (modelled as an association
list in insertion order).
-/

/-- Nested data value as loaded from YAML. -/
inductive Value where
  | str : List Char → Value
  | num : Int → Value
  | bool : Bool → Value
  | null : Value
  | list : List Value → Value
  | dict : List (List Char × Value) → Value

mutual

/-- Model of `_escape_data`: dicts keep their keys and recurse on values,
lists keep order and recurse on items, strings get
`escape_latex(convert_markdown_to_latex(s), preserve_commands=True)`, and
every other value is returned unchanged. -/
def _escape_data : Value → Value
  | .dict kvs => .dict (escDataDict kvs)
  | .list items => .list (escDataList items)
  | .str s => .str (escape_latex (convert_markdown_to_latex s) true)
  | .num n => .num n
  | .bool b => .bool b
  | .null => .null

/-- Value-wise recursion of `_escape_data` over the items of a list. -/
def escDataList : List Value → List Value
  | [] => []
  | v :: vs => _escape_data v :: escDataList vs

/-- Value-wise recursion of `_escape_data` over the entries of a dict. -/
def escDataDict : List (List Char × Value) → List (List Char × Value)
  | [] => []
  | (k, v) :: kvs => (k, _escape_data v) :: escDataDict kvs

end

/-!
Model of the loader.  A source directory is modelled as a partial map from
section name to the parsed content of `{section}.yaml` (`none` when the
file is absent; note that `some Value.null` models a present but empty
file).  `_load_from_directory` walks the fixed section list in order and
binds a key exactly for the present files.
-/

/-- Fixed section list of `_load_from_directory`, in source order. -/
def sections : List (List Char) :=
  ["personal".data, "config".data, "experience".data, "projects".data,
   "education".data, "skills".data, "research".data]

/-- Model of `_load_from_directory`: the `for section in sections` loop,
adding `data[section] = yaml.safe_load(...)` exactly when
`{section}.yaml` exists. -/
def _load_from_directory (dir : List Char → Option Value) :
    List (List Char × Value) :=
  sections.foldl
    (fun data sec =>
      match dir sec with
      | some v => data ++ [(sec, v)]
      | none => data)
    []

/-- Data source handed to `load_resume_data`: a directory (modelled by its
section-file map) or a single already-parsed YAML file. -/
inductive Source where
  | dir : (List Char → Option Value) → Source
  | file : List (List Char × Value) → Source

/-- Model of `load_resume_data`: dispatch on `source.is_dir()`. -/
def load_resume_data : Source → List (List Char × Value)
  | .dir d => _load_from_directory d
  | .file kvs => kvs

/-!
Model of `compile_latex` and `generate`.  The filesystem state relevant to
the claims is the state of the two support paths (`awesome-cv.cls` and
`fonts` in the output directory); the external compiler invocation is
modelled by an oracle outcome.  The initial `tex_file` write is modelled
as succeeding (the cleanup claim is scoped to runs that reach the
symlink-creation step).  `Path.exists()` follows links, so a dangling
symlink reports absent, and `symlink_to` on an occupied path raises
`FileExistsError`, which the source does not catch; `Path.is_symlink()`
is true for both healthy and dangling symlinks.
-/

/-- State of one of the two support paths in the output directory. -/
inductive PathSt where
  | absent
  | symlink
  | dangling
  | regular
deriving DecidableEq

/-- Exceptions that can escape the modelled code. -/
inductive PyExc where
  | fileExists
  | subprocessOther
deriving DecidableEq

instance : DecidableEq (Except PyExc Bool) := fun a b =>
  match a, b with
  | .ok x, .ok y =>
    if h : x = y then .isTrue (by rw [h])
    else .isFalse fun he => h (Except.ok.inj he)
  | .error x, .error y =>
    if h : x = y then .isTrue (by rw [h])
    else .isFalse fun he => h (Except.error.inj he)
  | .ok _, .error _ => .isFalse fun he => Except.noConfusion he
  | .error _, .ok _ => .isFalse fun he => Except.noConfusion he

/-- Outcome of the `subprocess.run(["tectonic", ...])` call. -/
inductive RunOutcome where
  | ok
  | calledProcessError
  | fileNotFoundError
  | otherError
deriving DecidableEq

/-- Filesystem state: the two support paths. -/
structure FS where
  cls : PathSt
  fonts : PathSt
deriving DecidableEq

/-- Model of `Path.exists()` (follows symlinks). -/
def pathExists : PathSt → Bool
  | .absent => false
  | .dangling => false
  | _ => true

/-- Model of `Path.is_symlink()` (true also for dangling links). -/
def isSymlink : PathSt → Bool
  | .symlink => true
  | .dangling => true
  | _ => false

/-- Model of `if not p.exists(): p.symlink_to(target)`: create the link
when the path reports absent; raise `FileExistsError` when the path is
occupied by a dangling link. -/
def tryCreate (p : PathSt) : Except PyExc PathSt :=
  if pathExists p then .ok p
  else if p = .dangling then .error .fileExists
  else .ok .symlink

/-- Model of one `finally`-block step: `if p.is_symlink(): p.unlink()`. -/
def cleanup (p : PathSt) : PathSt :=
  if isSymlink p then .absent else p

/-- Model of `compile_latex` from the symlink-creation step on: create the
two links if absent, run the compiler, catch exactly
`CalledProcessError` (return `False`) and `FileNotFoundError` (return
`False`), and run the `finally` cleanup on every exit path, re-raising any
uncaught exception afterwards. -/
def compile_latex (fs : FS) (run : RunOutcome) : Except PyExc Bool × FS :=
  let step : Except PyExc Bool × FS :=
    match tryCreate fs.cls with
    | .error e => (.error e, fs)
    | .ok c =>
      match tryCreate fs.fonts with
      | .error e => (.error e, { fs with cls := c })
      | .ok f =>
        let fs2 : FS := ⟨c, f⟩
        match run with
        | .ok => (.ok true, fs2)
        | .calledProcessError => (.ok false, fs2)
        | .fileNotFoundError => (.ok false, fs2)
        | .otherError => (.error .subprocessOther, fs2)
  (step.1, ⟨cleanup step.2.cls, cleanup step.2.fonts⟩)

/-- Model of `generate`: the load stage and the render stage each catch
`Exception` and return `False`; the compile stage is
`return self.compile_latex(...)` with no surrounding handler. -/
def generate (loadOk renderOk : Bool) (fs : FS) (run : RunOutcome) :
    Except PyExc Bool × FS :=
  if loadOk = false then (.ok false, fs)
  else if renderOk = false then (.ok false, fs)
  else compile_latex fs run

/-- Model of the exit of `main`: `sys.exit(0 if success else 1)` when
`generate` returns a boolean; `none` when `generate` raises instead, so
that `sys.exit` is never reached. -/
def mainExitCode (loadOk renderOk : Bool) (fs : FS) (run : RunOutcome) :
    Option Nat :=
  match (generate loadOk renderOk fs run).1 with
  | .ok true => some 0
  | .ok false => some 1
  | .error _ => none

/-!
Theory of single-character replacement.  `str.replace` with a
one-character pattern rewrites each occurrence of that character
independently, which `replaceChar` captures structurally.
-/

/-- Character-wise form of `pyReplace` with a one-character pattern. -/
def replaceChar (c : Char) (r : List Char) : List Char → List Char
  | [] => []
  | x :: xs => (if x = c then r else [x]) ++ replaceChar c r xs

theorem replaceAux_single (c : Char) (r : List Char) :
    ∀ (fuel : Nat) (s : List Char), s.length ≤ fuel →
      replaceAux [c] r fuel s = replaceChar c r s := by
  intro fuel
  induction fuel with
  | zero =>
    intro s hs
    have : s = [] := List.eq_nil_of_length_eq_zero (Nat.le_zero.mp hs)
    subst this
    rfl
  | succ n ih =>
    intro s hs
    cases s with
    | nil => rfl
    | cons x xs =>
      have hlen : xs.length ≤ n := Nat.le_of_succ_le_succ hs
      by_cases hx : x = c
      · subst hx
        simp [replaceAux, startsWith, replaceChar, ih xs hlen]
      · have : ¬ (c = x) := fun h => hx h.symm
        simp [replaceAux, startsWith, replaceChar, this, hx, ih xs hlen]

theorem pyReplace_single (c : Char) (r s : List Char) :
    pyReplace s [c] r = replaceChar c r s :=
  replaceAux_single c r s.length s (Nat.le_refl _)

theorem replaceChar_append (c : Char) (r a b : List Char) :
    replaceChar c r (a ++ b) = replaceChar c r a ++ replaceChar c r b := by
  induction a with
  | nil => rfl
  | cons x xs ih => simp [replaceChar, ih]

theorem replaceChar_of_not_mem (c : Char) (r : List Char) :
    ∀ s : List Char, c ∉ s → replaceChar c r s = s := by
  intro s
  induction s with
  | nil => intro _; rfl
  | cons x xs ih =>
    intro h
    have hcx : c ≠ x := fun hc => h (by simp [hc])
    have h2 : c ∉ xs := fun hc => h (List.mem_cons_of_mem _ hc)
    simp [replaceChar, Ne.symm hcx, ih h2]

theorem replaceChar_comm (c1 c2 : Char) (r1 r2 : List Char)
    (hne : c1 ≠ c2) (h12 : c1 ∉ r2) (h21 : c2 ∉ r1) :
    ∀ s : List Char,
      replaceChar c2 r2 (replaceChar c1 r1 s) =
        replaceChar c1 r1 (replaceChar c2 r2 s) := by
  intro s
  induction s with
  | nil => rfl
  | cons x xs ih =>
    show replaceChar c2 r2 ((if x = c1 then r1 else [x]) ++ replaceChar c1 r1 xs) =
      replaceChar c1 r1 ((if x = c2 then r2 else [x]) ++ replaceChar c2 r2 xs)
    rw [replaceChar_append, replaceChar_append, ih]
    congr 1
    by_cases h1 : x = c1
    · subst h1
      rw [if_pos rfl, if_neg hne, replaceChar_of_not_mem c2 r2 r1 h21]
      simp [replaceChar]
    · by_cases h2 : x = c2
      · subst h2
        rw [if_neg h1, if_pos rfl, replaceChar_of_not_mem c1 r1 r2 h12]
        simp [replaceChar]
      · rw [if_neg h1, if_neg h2]
        simp [replaceChar, h1, h2]

theorem applyRepls_cons (pr : Char × List Char) (rs : List (Char × List Char))
    (s : List Char) :
    applyRepls (pr :: rs) s = applyRepls rs (pyReplace s [pr.1] pr.2) := rfl

theorem applyRepls_nil : ∀ rs : List (Char × List Char), applyRepls rs [] = []
  | [] => rfl
  | pr :: rs => by
    rw [applyRepls_cons]
    exact applyRepls_nil rs

theorem applyRepls_append (rs : List (Char × List Char)) :
    ∀ a b : List Char,
      applyRepls rs (a ++ b) = applyRepls rs a ++ applyRepls rs b := by
  induction rs with
  | nil => intro a b; rfl
  | cons pr rs ih =>
    intro a b
    simp only [applyRepls_cons, pyReplace_single, replaceChar_append, ih]

theorem applyRepls_id (rs : List (Char × List Char)) :
    ∀ s : List Char, (∀ pr ∈ rs, pr.1 ∉ s) → applyRepls rs s = s := by
  induction rs with
  | nil => intro s _; rfl
  | cons pr rs ih =>
    intro s h
    rw [applyRepls_cons, pyReplace_single,
      replaceChar_of_not_mem _ _ _ (h pr (List.mem_cons_self _ _))]
    exact ih s fun q hq => h q (List.mem_cons_of_mem _ hq)

theorem applyRepls_single_id (rs : List (Char × List Char)) (x : Char)
    (h : ∀ pr ∈ rs, x ≠ pr.1) : applyRepls rs [x] = [x] :=
  applyRepls_id rs [x] fun pr hpr hmem => by
    have : pr.1 = x := List.mem_singleton.mp hmem
    exact h pr hpr this.symm

/-- Pairwise independence of the base (preserve-mode) replacement table:
distinct entries replace distinct characters and no replacement string
contains the character of another entry. -/
theorem base_repls_indep :
    ∀ x ∈ replacements true, ∀ y ∈ replacements true,
      x ≠ y → x.1 ≠ y.1 ∧ x.1 ∉ y.2 ∧ y.1 ∉ x.2 := by decide

/-!
Escapedness predicate for raw-mode output.  An output string is fully
escaped when the characters `~` and `^` do not occur at all (their escape
sequences contain neither) and every occurrence of one of
`&`, `%`, `$`, `#`, `_`, `{`, `}` is immediately preceded by a backslash.
-/

/-- Characters whose raw-mode escape is a backslash-prefixed pair. -/
def isSpecial7 (c : Char) : Bool :=
  c == '&' || c == '%' || c == '$' || c == '#' || c == '_' ||
    c == '\x7b' || c == '\x7d'

/-- Check for the character `c` when the previous character is `p`. -/
def nuStep (p : Option Char) (c : Char) : Bool :=
  if c == '~' || c == '^' then false
  else if isSpecial7 c then p == some '\\'
  else true

/-- Scan with the previous character threaded through. -/
def nuAux : Option Char → List Char → Bool
  | _, [] => true
  | p, c :: rest => nuStep p c && nuAux (some c) rest

/-- Every reserved character of the raw nine-character set occurring in
`s` is escaped: `~` and `^` are absent and the remaining seven are each
immediately preceded by a backslash. -/
def noUnescaped (s : List Char) : Bool := nuAux none s

/-- Last character of `a`, falling back to `p` for the empty list. -/
def lastO (p : Option Char) : List Char → Option Char
  | [] => p
  | c :: rest => lastO (some c) rest

theorem nuAux_append (a : List Char) :
    ∀ (p : Option Char) (b : List Char),
      nuAux p (a ++ b) = (nuAux p a && nuAux (lastO p a) b) := by
  induction a with
  | nil => intro p b; simp [nuAux, lastO]
  | cons c a' ih => intro p b; simp [nuAux, lastO, ih, Bool.and_assoc]

theorem nuAux_append_block (p : Option Char) (B t : List Char)
    (h1 : nuAux p B = true) (h2 : nuAux (lastO p B) t = true) :
    nuAux p (B ++ t) = true := by
  rw [nuAux_append, h1, h2]
  rfl

/-- Raw-mode escaping leaves every reserved character escaped, whatever
the input: per input character the emitted block starts with a
non-reserved character and carries a backslash before each reserved one,
and blocks concatenate without breaking those pairs. -/
theorem nuAux_escRaw :
    ∀ (s : List Char) (p : Option Char),
      nuAux p (applyRepls (replacements false) s) = true := by
  intro s
  induction s with
  | nil =>
    intro p
    rw [applyRepls_nil]
    rfl
  | cons x xs ih =>
    intro p
    rw [show x :: xs = [x] ++ xs from rfl, applyRepls_append]
    by_cases h1 : x = '&'
    · subst h1
      rw [show applyRepls (replacements false) ['&'] = ['\\', '&'] from by decide]
      exact nuAux_append_block _ _ _ rfl (ih _)
    by_cases h2 : x = '%'
    · subst h2
      rw [show applyRepls (replacements false) ['%'] = ['\\', '%'] from by decide]
      exact nuAux_append_block _ _ _ rfl (ih _)
    by_cases h3 : x = '$'
    · subst h3
      rw [show applyRepls (replacements false) ['$'] = ['\\', '$'] from by decide]
      exact nuAux_append_block _ _ _ rfl (ih _)
    by_cases h4 : x = '#'
    · subst h4
      rw [show applyRepls (replacements false) ['#'] = ['\\', '#'] from by decide]
      exact nuAux_append_block _ _ _ rfl (ih _)
    by_cases h5 : x = '~'
    · subst h5
      rw [show applyRepls (replacements false) ['~'] =
        "\\textasciitilde\\\x7b\\\x7d".data from by decide]
      exact nuAux_append_block _ _ _ rfl (ih _)
    by_cases h6 : x = '^'
    · subst h6
      rw [show applyRepls (replacements false) ['^'] =
        "\\textasciicircum\\\x7b\\\x7d".data from by decide]
      exact nuAux_append_block _ _ _ rfl (ih _)
    by_cases h7 : x = '_'
    · subst h7
      rw [show applyRepls (replacements false) ['_'] = ['\\', '_'] from by decide]
      exact nuAux_append_block _ _ _ rfl (ih _)
    by_cases h8 : x = '\x7b'
    · subst h8
      rw [show applyRepls (replacements false) ['\x7b'] = ['\\', '\x7b'] from by decide]
      exact nuAux_append_block _ _ _ rfl (ih _)
    by_cases h9 : x = '\x7d'
    · subst h9
      rw [show applyRepls (replacements false) ['\x7d'] = ['\\', '\x7d'] from by decide]
      exact nuAux_append_block _ _ _ rfl (ih _)
    have hall : ∀ pr ∈ replacements false, x ≠ pr.1 := by
      intro pr hpr
      fin_cases hpr <;> simp_all
    rw [applyRepls_single_id _ x hall]
    refine nuAux_append_block _ _ _ ?_ (ih _)
    have hstep : nuStep p x = true := by
      simp [nuStep, isSpecial7, h1, h2, h3, h4, h5, h6, h7, h8, h9]
    simp [nuAux, hstep]

/-!
Identity lemmas: each transformation pass leaves a string untouched when
the string contains no character or token the pass looks for.
-/

theorem startsWith_false_of_not_mem (c : Char) (ps : List Char)
    (x : Char) (xs : List Char) (h : c ∉ x :: xs) :
    startsWith (c :: ps) (x :: xs) = false := by
  have : c ≠ x := fun hcx => h (by simp [hcx])
  simp [startsWith, this]

theorem subAux_id (c : Char) (ops cl rS rE : List Char) :
    ∀ (fuel : Nat) (s : List Char), c ∉ s →
      subAux (c :: ops) cl rS rE fuel s = s := by
  intro fuel
  induction fuel with
  | zero => intro s _; rfl
  | succ n ih =>
    intro s hs
    cases s with
    | nil => rfl
    | cons x xs =>
      have hsw : startsWith (c :: ops) (x :: xs) = false :=
        startsWith_false_of_not_mem c ops x xs hs
      have h2 : c ∉ xs := fun h => hs (List.mem_cons_of_mem _ h)
      simp [subAux, hsw, ih xs h2]

theorem reSub_id (c : Char) (ops cl rS rE s : List Char) (h : c ∉ s) :
    reSub (c :: ops) cl rS rE s = s :=
  subAux_id c ops cl rS rE s.length s h

/-- Strings free of the three marker characters pass through
`convert_markdown_to_latex` unchanged. -/
theorem convert_id (s : List Char)
    (h1 : '*' ∉ s) (h2 : '_' ∉ s) (h3 : '\x60' ∉ s) :
    convert_markdown_to_latex s = s := by
  show reSub ['\x60'] ['\x60'] ttStart ttEnd
      (reSub ['_'] ['_'] itStart itEnd
        (reSub ['*'] ['*'] bfStart bfEnd
          (reSub ['*', '*'] ['*', '*'] bfStart bfEnd s))) = s
  rw [reSub_id '*' ['*'] ['*', '*'] bfStart bfEnd s h1,
    reSub_id '*' [] ['*'] bfStart bfEnd s h1,
    reSub_id '_' [] ['_'] itStart itEnd s h2,
    reSub_id '\x60' [] ['\x60'] ttStart ttEnd s h3]

theorem occursIn_cons_false (pat : List Char) (x : Char) (xs : List Char)
    (h : occursIn pat (x :: xs) = false) :
    startsWith pat (x :: xs) = false ∧ occursIn pat xs = false := by
  simpa [occursIn] using h

theorem replaceAux_id (pat r : List Char) :
    ∀ (fuel : Nat) (s : List Char), occursIn pat s = false →
      replaceAux pat r fuel s = s := by
  intro fuel
  induction fuel with
  | zero => intro s _; rfl
  | succ n ih =>
    intro s hs
    cases s with
    | nil => rfl
    | cons x xs =>
      obtain ⟨hsw, hrest⟩ := occursIn_cons_false pat x xs hs
      simp [replaceAux, hsw, ih xs hrest]

theorem pyReplace_id (s pat r : List Char) (h : occursIn pat s = false) :
    pyReplace s pat r = s :=
  replaceAux_id pat r s.length s h

theorem foldl_pyReplace_id (rs : List (List Char × List Char)) :
    ∀ s : List Char, (∀ pr ∈ rs, occursIn pr.1 s = false) →
      rs.foldl (fun u pr => pyReplace u pr.1 pr.2) s = s := by
  induction rs with
  | nil => intro s _; rfl
  | cons pr rs ih =>
    intro s h
    simp only [List.foldl_cons]
    rw [pyReplace_id s pr.1 pr.2 (h pr (List.mem_cons_self _ _))]
    exact ih s fun q hq => h q (List.mem_cons_of_mem _ hq)

theorem escDataList_eq_map :
    ∀ l : List Value, escDataList l = l.map _escape_data
  | [] => rfl
  | v :: vs => by simp [escDataList, escDataList_eq_map vs]

theorem escDataDict_eq_map :
    ∀ kvs : List (List Char × Value),
      escDataDict kvs = kvs.map fun kv => (kv.1, _escape_data kv.2)
  | [] => rfl
  | (k, v) :: kvs => by simp [escDataDict, escDataDict_eq_map kvs]

/-- Concrete directory map used to witness the directory-load claim. -/
def demoDir : List Char → Option Value := fun sec =>
  if sec = "personal".data then some (Value.str "Ada Lovelace".data)
  else if sec = "skills".data then some (Value.str "Lean".data)
  else none

/-!
Claim theorems.
-/

/-- C1: for the input `"**Bold** and _italic_ and `code` with 50% & more"`,
translating markdown and then escaping with `preserve_commands=True`
yields a string containing `\textbf{Bold}`, `\textit{italic}`,
`\texttt{code}`, `\%` and `\&`, and containing none of the six
placeholder marker tokens. -/
theorem c1_roundtrip :
    sanitizeStr "**Bold** and _italic_ and \x60code\x60 with 50% & more".data =
      "\\textbf\x7bBold\x7d and \\textit\x7bitalic\x7d and \\texttt\x7bcode\x7d with 50\\% \\& more".data ∧
    occursIn "\\textbf\x7bBold\x7d".data
      (sanitizeStr "**Bold** and _italic_ and \x60code\x60 with 50% & more".data) = true ∧
    occursIn "\\textit\x7bitalic\x7d".data
      (sanitizeStr "**Bold** and _italic_ and \x60code\x60 with 50% & more".data) = true ∧
    occursIn "\\texttt\x7bcode\x7d".data
      (sanitizeStr "**Bold** and _italic_ and \x60code\x60 with 50% & more".data) = true ∧
    occursIn "\\%".data
      (sanitizeStr "**Bold** and _italic_ and \x60code\x60 with 50% & more".data) = true ∧
    occursIn "\\&".data
      (sanitizeStr "**Bold** and _italic_ and \x60code\x60 with 50% & more".data) = true ∧
    occursIn bfStart
      (sanitizeStr "**Bold** and _italic_ and \x60code\x60 with 50% & more".data) = false ∧
    occursIn bfEnd
      (sanitizeStr "**Bold** and _italic_ and \x60code\x60 with 50% & more".data) = false ∧
    occursIn itStart
      (sanitizeStr "**Bold** and _italic_ and \x60code\x60 with 50% & more".data) = false ∧
    occursIn itEnd
      (sanitizeStr "**Bold** and _italic_ and \x60code\x60 with 50% & more".data) = false ∧
    occursIn ttStart
      (sanitizeStr "**Bold** and _italic_ and \x60code\x60 with 50% & more".data) = false ∧
    occursIn ttEnd
      (sanitizeStr "**Bold** and _italic_ and \x60code\x60 with 50% & more".data) = false := by
  decide

/-- C2 counterexample: for the claim's own example input `"**a _b_ c**"`,
`convert_markdown_to_latex` does not leave the bold placeholder wrapping
`"a _b_ c"` literally — the italic pass rewrites inside it, so an
italic placeholder does occur in the output. -/
theorem c2_counterexample :
    convert_markdown_to_latex "**a _b_ c**".data ≠
      "<<<TEXTBFSTART>>>a _b_ c<<<TEXTBFEND>>>".data ∧
    occursIn itStart (convert_markdown_to_latex "**a _b_ c**".data) = true := by
  decide

/-- C2 amended: a single substitution pass wraps the delimited content
verbatim (the bold pass alone yields the bold placeholder around
`"a _b_ c"`), but the passes run sequentially over the whole string, so a
later pass rewrites markers inside content captured by an earlier pass:
the full translation of `"**a _b_ c**"` has an italic placeholder nested
inside the bold span. -/
theorem c2_amended_nesting :
    reSub ['*', '*'] ['*', '*'] bfStart bfEnd "**a _b_ c**".data =
      "<<<TEXTBFSTART>>>a _b_ c<<<TEXTBFEND>>>".data ∧
    convert_markdown_to_latex "**a _b_ c**".data =
      "<<<TEXTBFSTART>>>a <<<TEXTITSTART>>>b<<<TEXTITEND>>> c<<<TEXTBFEND>>>".data := by
  decide

/-- C3 counterexample: with the raw-mode replacement table (which includes
the `_`, `{`, `}` entries), applying the per-character replacements in
reversed order gives a different result on `"~"` than the table order,
because `\textasciitilde{}` itself contains `{` and `}`. -/
theorem c3_counterexample :
    (replacements false).reverse.Perm (replacements false) ∧
    applyRepls (replacements false).reverse "~".data ≠
      applyRepls (replacements false) "~".data :=
  ⟨List.reverse_perm _, by decide⟩

/-- C3 amended: for the base six-character table used when
`preserve_commands=True`, the order of the per-character replacements is
irrelevant: no replacement string contains the character of another entry,
so any permutation of the table yields the same output on every string. -/
theorem c3_base_order_independent (rs : List (Char × List Char))
    (s : List Char) (h : rs.Perm (replacements true)) :
    applyRepls rs s = applyRepls (replacements true) s := by
  refine h.foldl_eq' ?_ s
  intro x hx y hy z
  by_cases hxy : x = y
  · subst hxy; rfl
  · have hx' : x ∈ replacements true := h.mem_iff.mp hx
    have hy' : y ∈ replacements true := h.mem_iff.mp hy
    obtain ⟨hne, h12, h21⟩ := base_repls_indep x hx' y hy' hxy
    rw [pyReplace_single, pyReplace_single, pyReplace_single, pyReplace_single]
    exact replaceChar_comm x.1 y.1 x.2 y.2 hne h12 h21 z

/-- C3 witness: the reversed base table is a permutation of the base
table and gives the same result on a concrete string. -/
theorem c3_base_order_independent_witness :
    (replacements true).reverse.Perm (replacements true) ∧
    applyRepls (replacements true).reverse "a~b%c".data =
      applyRepls (replacements true) "a~b%c".data :=
  ⟨List.reverse_perm _,
    c3_base_order_independent (replacements true).reverse "a~b%c".data
      (List.reverse_perm _)⟩

/-- C4: raw-mode escaping (`preserve_commands=False`) leaves no unescaped
occurrence of the nine reserved characters: `~` and `^` are eliminated
entirely and every remaining occurrence of `&`, `%`, `$`, `#`, `_`,
`{`, `}` sits immediately after a backslash put there by the escaper. -/
theorem c4_raw_escape_fully_escaped (s : List Char) :
    noUnescaped (escape_latex s false) = true :=
  nuAux_escRaw s none

/-- C5 counterexample: the literal string `"<<<TEXTBFSTART>>>"` contains
no marker character and no reserved character, yet sanitisation rewrites
it to `\textbf{`, because placeholder resolution fires on the literal
token. -/
theorem c5_counterexample :
    ('*' ∉ "<<<TEXTBFSTART>>>".data ∧ '_' ∉ "<<<TEXTBFSTART>>>".data ∧
      '\x60' ∉ "<<<TEXTBFSTART>>>".data ∧ '&' ∉ "<<<TEXTBFSTART>>>".data ∧
      '%' ∉ "<<<TEXTBFSTART>>>".data ∧ '$' ∉ "<<<TEXTBFSTART>>>".data ∧
      '#' ∉ "<<<TEXTBFSTART>>>".data ∧ '~' ∉ "<<<TEXTBFSTART>>>".data ∧
      '^' ∉ "<<<TEXTBFSTART>>>".data) ∧
    sanitizeStr "<<<TEXTBFSTART>>>".data ≠ "<<<TEXTBFSTART>>>".data := by
  decide

/-- C5 amended: sanitisation is the identity on strings that contain no
marker character (`*`, `_`, backtick), no reserved character
(`&`, `%`, `$`, `#`, `~`, `^`) and additionally no occurrence of any of
the six placeholder marker tokens. -/
theorem c5_pure_text_id (s : List Char)
    (hstar : '*' ∉ s) (hund : '_' ∉ s) (htick : '\x60' ∉ s)
    (hamp : '&' ∉ s) (hpct : '%' ∉ s) (hdol : '$' ∉ s)
    (hhash : '#' ∉ s) (htil : '~' ∉ s) (hcar : '^' ∉ s)
    (hph : ∀ tok ∈ [bfStart, bfEnd, itStart, itEnd, ttStart, ttEnd],
      occursIn tok s = false) :
    sanitizeStr s = s := by
  unfold sanitizeStr
  rw [convert_id s hstar hund htick]
  show resolvePlaceholders (applyRepls (replacements true) s) = s
  have hbase : applyRepls (replacements true) s = s := by
    apply applyRepls_id
    intro pr hpr
    fin_cases hpr <;> assumption
  rw [hbase]
  refine foldl_pyReplace_id placeholderRepls s ?_
  intro pr hpr
  fin_cases hpr
  · exact hph bfStart (by simp)
  · exact hph bfEnd (by simp)
  · exact hph itStart (by simp)
  · exact hph itEnd (by simp)
  · exact hph ttStart (by simp)
  · exact hph ttEnd (by simp)

/-- C5 witness: a concrete plain string is left unchanged. -/
theorem c5_pure_text_id_witness :
    sanitizeStr "Research Engineer, 2021 to 2024".data =
      "Research Engineer, 2021 to 2024".data :=
  c5_pure_text_id "Research Engineer, 2021 to 2024".data
    (by decide) (by decide) (by decide) (by decide) (by decide) (by decide)
    (by decide) (by decide) (by decide) (by decide)

/-- C6: `_escape_data` is a structure-preserving deep copy: dicts keep
exactly their keys with each value sanitised recursively, lists keep
length and order with each item sanitised recursively, strings get
`escape_latex(convert_markdown_to_latex(s), preserve_commands=True)`, and
numbers, booleans and null are returned unchanged. -/
theorem c6_escape_data_deep_copy :
    (∀ kvs : List (List Char × Value),
      _escape_data (Value.dict kvs) =
        Value.dict (kvs.map fun kv => (kv.1, _escape_data kv.2)) ∧
      (escDataDict kvs).map Prod.fst = kvs.map Prod.fst) ∧
    (∀ items : List Value,
      _escape_data (Value.list items) = Value.list (items.map _escape_data) ∧
      (escDataList items).length = items.length) ∧
    (∀ s : List Char,
      _escape_data (Value.str s) =
        Value.str (escape_latex (convert_markdown_to_latex s) true)) ∧
    (∀ n : Int, _escape_data (Value.num n) = Value.num n) ∧
    (∀ b : Bool, _escape_data (Value.bool b) = Value.bool b) ∧
    _escape_data Value.null = Value.null := by
  refine ⟨fun kvs => ⟨?_, ?_⟩, fun items => ⟨?_, ?_⟩,
    fun s => rfl, fun n => rfl, fun b => rfl, rfl⟩
  · simp [_escape_data, escDataDict_eq_map]
  · simp [escDataDict_eq_map]
  · simp [_escape_data, escDataList_eq_map]
  · simp [escDataList_eq_map]

/-- C7: whatever the initial state of the two support paths and whatever
the compiler invocation does (success, caught failure, or an uncaught
exception), after `compile_latex` finishes neither support path is left
as a symlink: links are created only if the path reports absent and the
`finally` block unlinks whatever is a symlink on every exit path. -/
theorem c7_symlink_cleanup (fs : FS) (run : RunOutcome) :
    isSymlink (compile_latex fs run).2.cls = false ∧
    isSymlink (compile_latex fs run).2.fonts = false := by
  obtain ⟨c, f⟩ := fs
  cases c <;> cases f <;> cases run <;> exact ⟨rfl, rfl⟩

/-- C8 counterexample: with load and render succeeding and the compiler
invocation raising an exception other than `CalledProcessError` or
`FileNotFoundError`, `generate` propagates the exception instead of
returning a boolean, and `sys.exit(0 if success else 1)` is never
reached. -/
theorem c8_counterexample :
    (generate true true ⟨PathSt.absent, PathSt.absent⟩ RunOutcome.otherError).1 =
      Except.error PyExc.subprocessOther ∧
    mainExitCode true true ⟨PathSt.absent, PathSt.absent⟩ RunOutcome.otherError =
      none := by
  decide

/-- C8 amended: the load and render stages each catch their exceptions
and make `generate` return `False`; the compile stage catches only
`CalledProcessError` and `FileNotFoundError` (returning a boolean), while
any other exception there — an unexpected subprocess exception, or
`FileExistsError` from `symlink_to` on a dangling link — propagates out
of `generate`; whenever `generate` does return a boolean `b`, the process
exits with code `0` when `b` is true and `1` otherwise. -/
theorem c8_stagewise_errors (loadOk renderOk : Bool) (fs : FS)
    (run : RunOutcome) :
    (loadOk = false →
      generate loadOk renderOk fs run = (Except.ok false, fs)) ∧
    (renderOk = false →
      generate loadOk renderOk fs run = (Except.ok false, fs)) ∧
    (loadOk = true → renderOk = true → fs.cls ≠ PathSt.dangling →
      fs.fonts ≠ PathSt.dangling → run ≠ RunOutcome.otherError →
      (generate loadOk renderOk fs run).1 =
        Except.ok (decide (run = RunOutcome.ok))) ∧
    (loadOk = true → renderOk = true → fs.cls ≠ PathSt.dangling →
      fs.fonts ≠ PathSt.dangling → run = RunOutcome.otherError →
      (generate loadOk renderOk fs run).1 =
        Except.error PyExc.subprocessOther) ∧
    (loadOk = true → renderOk = true →
      (fs.cls = PathSt.dangling ∨ fs.fonts = PathSt.dangling) →
      (generate loadOk renderOk fs run).1 = Except.error PyExc.fileExists) ∧
    (∀ b : Bool, (generate loadOk renderOk fs run).1 = Except.ok b →
      mainExitCode loadOk renderOk fs run = some (if b then 0 else 1)) := by
  obtain ⟨c, f⟩ := fs
  cases loadOk <;> cases renderOk <;> cases c <;> cases f <;> cases run <;>
    exact ⟨by decide, by decide, by decide, by decide, by decide, by decide⟩

/-- C8 witness: a failing load stage makes `generate` return `False`. -/
theorem c8_stagewise_errors_witness :
    generate false true ⟨PathSt.absent, PathSt.absent⟩ RunOutcome.ok =
      (Except.ok false, ⟨PathSt.absent, PathSt.absent⟩) :=
  (c8_stagewise_errors false true ⟨PathSt.absent, PathSt.absent⟩
    RunOutcome.ok).1 rfl

/-- C9: loading from a directory in which exactly the `personal` and
`skills` section files are present yields a mapping with exactly those
two keys, in section-list order, each bound to its file's content;
absent sections contribute no key at all. -/
theorem c9_directory_load (dir : List Char → Option Value) (p s : Value)
    (hp : dir "personal".data = some p)
    (hs : dir "skills".data = some s)
    (hc : dir "config".data = none)
    (he : dir "experience".data = none)
    (hpr : dir "projects".data = none)
    (hed : dir "education".data = none)
    (hr : dir "research".data = none) :
    load_resume_data (Source.dir dir) =
      [("personal".data, p), ("skills".data, s)] := by
  simp [load_resume_data, _load_from_directory, sections,
    hp, hs, hc, he, hpr, hed, hr]

/-- C9 witness: the concrete two-section directory map. -/
theorem c9_directory_load_witness :
    load_resume_data (Source.dir demoDir) =
      [("personal".data, Value.str "Ada Lovelace".data),
       ("skills".data, Value.str "Lean".data)] :=
  c9_directory_load demoDir _ _ rfl rfl rfl rfl rfl rfl rfl

/-- C10: raw-mode escaping is not idempotent: one application sends `"%"`
to `\%`, a second application escapes the `%` inside the escape sequence
again, giving `\\%`. -/
theorem c10_raw_not_idempotent :
    escape_latex "%".data false = "\\%".data ∧
    escape_latex (escape_latex "%".data false) false = "\\\\%".data ∧
    escape_latex (escape_latex "%".data false) false ≠
      escape_latex "%".data false := by
  decide

end PyResume
